import Mathlib

/-!
Verification development for the time-series analytics engine
(hot in-memory store, warm on-disk block store, cross-tier query router,
ingestion validator and online anomaly detectors).

Conventions of the shallow embedding:
* wall-clock instants (Go time.Time) are Int nanoseconds since the Unix epoch;
* IEEE-754 doubles that only flow through comparisons are modelled by FVal,
  which keeps finite values exact as rationals and represents the infinities
  and NaN explicitly with IEEE comparison semantics;
* values inside the analytics detectors, whose claims only concern control
  flow and window management, are modelled as exact rationals;
* Go maps are modelled as association lists (first binding wins on lookup);
* disk files are lists of bytes (naturals); the fixed 12-byte block headers
  are encoded byte-exactly, the compressed payload produced by gzip+JSON is
  abstracted by an injective codec passed in as a parameter (enc / dec);
* fallible operations return Except String, carrying the error messages the
  Go code produces with fmt.Errorf.
-/

namespace TSAE

/-- Model of an IEEE-754 double restricted to the observations the code
makes: ordered comparison of finite values, the infinities, and NaN. -/
inductive FVal where
  | finite (q : ℚ)
  | posInf
  | negInf
  | nan
deriving DecidableEq, Repr

/-- IEEE less-than on doubles: any comparison with NaN is false. -/
def FVal.flt : FVal → FVal → Bool
  | .finite a, .finite b => decide (a < b)
  | .finite _, .posInf => true
  | .negInf, .finite _ => true
  | .negInf, .posInf => true
  | _, _ => false

/-- IEEE greater-than on doubles. -/
def FVal.fgt (a b : FVal) : Bool := FVal.flt b a

/-- storage.DataPoint: a timestamp (ns since epoch) and a float64 value. -/
structure DataPoint where
  timestamp : Int
  value : FVal
deriving DecidableEq, Repr

/-- storage.Series: id, labels, ordered points, last-seen instant.
Labels are an association list modelling the Go string map. -/
structure Series where
  id : String
  labels : List (String × String)
  points : List DataPoint
  lastSeen : Int
deriving DecidableEq, Repr

/-- NewSeries: fresh series with empty point list and lastSeen = now.
A nil label map becomes the empty map. -/
def Series.new (id : String) (labels : List (String × String)) (now : Int) : Series :=
  { id := id, labels := labels, points := [], lastSeen := now }

/-- The index computed by sort.Search in Series.AddPoint: the smallest
index whose timestamp is strictly after t.  On the sorted point lists the
store maintains, binary search returns exactly the length of the maximal
prefix of points with timestamp less than or equal to t. -/
def upperIdx (l : List DataPoint) (t : Int) : Nat :=
  (l.takeWhile (fun p => decide (p.timestamp ≤ t))).length

/-- The duplicate-timestamp test of Series.AddPoint:
pos is greater than 0 and points at position pos-1 carries timestamp t. -/
def isDupAt (l : List DataPoint) (t : Int) : Bool :=
  let pos := upperIdx l t
  decide (0 < pos) && ((l.get? (pos - 1)).map DataPoint.timestamp == some t)

/-- The point-list transformation of Series.AddPoint: overwrite the value
in place on a duplicate timestamp, otherwise splice the new point in at the
position found by the binary search. -/
def addPointList (l : List DataPoint) (t : Int) (v : FVal) : List DataPoint :=
  let pos := upperIdx l t
  if isDupAt l t then l.set (pos - 1) ⟨t, v⟩
  else l.take pos ++ ⟨t, v⟩ :: l.drop pos

/-- Series.AddPoint: insert preserving sort order, last-write-wins on an
identical timestamp.  The Go code returns from the duplicate branch before
touching LastSeen, so lastSeen is updated only on a true insert. -/
def Series.addPoint (s : Series) (t : Int) (v : FVal) (now : Int) : Series :=
  { s with
    points := addPointList s.points t v,
    lastSeen := if isDupAt s.points t then s.lastSeen else now }

/-- Series.Size. -/
def Series.size (s : Series) : Nat := s.points.length

/-- Series.GetRange: two binary searches delimit the closed window
[start, endT]; the slice between them is returned (as a copy). -/
def Series.getRange (s : Series) (start endT : Int) : List DataPoint :=
  let startIdx := (s.points.takeWhile (fun p => decide (p.timestamp < start))).length
  if s.points.length ≤ startIdx then []
  else
    let endIdx := (s.points.takeWhile (fun p => decide (p.timestamp ≤ endT))).length
    if endIdx ≤ startIdx then []
    else ((s.points.drop startIdx).take (endIdx - startIdx))

/-- Series.GetLatest: the most recent count points, ascending. -/
def Series.getLatest (s : Series) (count : Int) : List DataPoint :=
  if count ≤ 0 ∨ s.points.length = 0 then []
  else s.points.drop (s.points.length - count.toNat)

/-- storage.HotStorage: id-to-series map, caps, and the totalPoints
counter. -/
structure HotStorage where
  series : List (String × Series)
  maxSeries : Nat
  maxPointsPerSeries : Nat
  totalPoints : Int
deriving DecidableEq, Repr

/-- NewHotStorage. -/
def HotStorage.new (maxSeries maxPointsPerSeries : Nat) : HotStorage :=
  { series := [], maxSeries := maxSeries, maxPointsPerSeries := maxPointsPerSeries,
    totalPoints := 0 }

/-- Replace the binding of key k (or append it when absent), modelling a
Go map assignment. -/
def assocSet {β : Type} (l : List (String × β)) (k : String) (b : β) : List (String × β) :=
  if l.any (fun e => e.1 == k) then l.map (fun e => if e.1 == k then (e.1, b) else e)
  else l ++ [(k, b)]

/-- HotStorage.AddPoint.  Creation of an absent series checks the
cardinality cap; the depth check then either drops the oldest point (no
counter bump) or increments totalPoints, and finally delegates to
Series.AddPoint - even when that append is an update of an existing
timestamp rather than an insert. -/
def HotStorage.addPoint (hs : HotStorage) (id : String) (labels : List (String × String))
    (t : Int) (v : FVal) (now : Int) : Except String HotStorage :=
  let found := hs.series.lookup id
  match found with
  | none =>
      if hs.maxSeries ≤ hs.series.length then
        .error "series limit exceeded"
      else
        let s0 := Series.new id labels now
        let (s1, tp) :=
          if hs.maxPointsPerSeries ≤ s0.points.length then
            ({ s0 with points := s0.points.tail }, hs.totalPoints)
          else (s0, hs.totalPoints + 1)
        .ok { hs with series := assocSet hs.series id (s1.addPoint t v now), totalPoints := tp }
  | some s0 =>
      let (s1, tp) :=
        if hs.maxPointsPerSeries ≤ s0.points.length then
          ({ s0 with points := s0.points.tail }, hs.totalPoints)
        else (s0, hs.totalPoints + 1)
      .ok { hs with series := assocSet hs.series id (s1.addPoint t v now), totalPoints := tp }

/-- HotStorage.GetSeries. -/
def HotStorage.getSeries (hs : HotStorage) (id : String) : Option Series :=
  hs.series.lookup id

/-- Go map read with the zero-value default: a missing label key reads as
the empty string. -/
def mapGet (labels : List (String × String)) (k : String) : String :=
  (labels.lookup k).getD ""

/-- matchesLabels: every filter pair must agree with the series label map,
where a missing key reads as the empty string (Go zero value). -/
def matchesLabels (seriesLabels filters : List (String × String)) : Bool :=
  filters.all (fun kv => mapGet seriesLabels kv.1 == kv.2)

/-- HotStorage.GetSeriesByLabels: all resident series whose labels match
the filters. -/
def HotStorage.getSeriesByLabels (hs : HotStorage) (filters : List (String × String)) :
    List Series :=
  (hs.series.filter (fun e => matchesLabels e.2.labels filters)).map Prod.snd

/-- HotStorage.CleanupStale: drop every series whose lastSeen is strictly
older than now - maxAge, decrementing totalPoints by the removed sizes;
returns the new state and the number removed. -/
def HotStorage.cleanupStale (hs : HotStorage) (maxAge : Int) (now : Int) :
    HotStorage × Nat :=
  let stale := hs.series.filter (fun e => decide (maxAge < now - e.2.lastSeen))
  let kept := hs.series.filter (fun e => !(decide (maxAge < now - e.2.lastSeen)))
  let next : HotStorage :=
    { hs with
      series := kept
      totalPoints := hs.totalPoints - ((stale.map (fun e => (e.2.size : Int))).sum) }
  (next, stale.length)

/-- Sum of the resident series sizes, the quantity the counter-consistency
invariant compares against totalPoints. -/
def HotStorage.sumSizes (hs : HotStorage) : Int :=
  ((hs.series.map (fun e => (e.2.size : Int))).sum)

/-! ## Warm storage: on-disk block files

A file is a list of bytes.  Each block is a 12-byte header (8-byte
little-endian millisecond timestamp, 4-byte little-endian payload length)
followed by the compressed payload.  The gzip+JSON codec is abstracted by
an enc / dec parameter pair; the header bytes are modelled exactly. -/

/-- A model byte; the header encoder only ever produces values below 256,
payload bytes produced by a codec are opaque. -/
abbrev Byte := Nat

/-- k-byte little-endian encoding of a natural number. -/
def encodeLE : Nat → Nat → List Byte
  | 0, _ => []
  | k + 1, n => (n % 256) :: encodeLE k (n / 256)

/-- Little-endian decoding of a byte list to a natural number. -/
def decodeLE (bs : List Byte) : Nat :=
  bs.foldr (fun b acc => b + 256 * acc) 0

/-- Decode 8 little-endian bytes as a two's-complement int64. -/
def decodeInt64 (bs : List Byte) : Int :=
  let n := decodeLE bs
  if n < 2 ^ 63 then (n : Int) else (n : Int) - 2 ^ 64

/-- Decode 4 little-endian bytes as a two's-complement int32. -/
def decodeInt32 (bs : List Byte) : Int :=
  let n := decodeLE bs
  if n < 2 ^ 31 then (n : Int) else (n : Int) - 2 ^ 32

/-- time.Unix(ms / 1000, (ms % 1000) * 1000000): reconstruct a nanosecond
instant from whole milliseconds, with Go's truncated division. -/
def msToNs (ms : Int) : Int :=
  (ms.tdiv 1000) * 1000000000 + (ms.tmod 1000) * 1000000

/-- UnixNano() / 1000000: an instant truncated to whole milliseconds. -/
def nsToMs (ns : Int) : Int := ns.tdiv 1000000

/-- storage.WarmDataBlock: the self-describing record serialized into a
block payload. -/
structure WarmDataBlock where
  seriesID : String
  labels : List (String × String)
  startTime : Int
  endTime : Int
  count : Nat
  points : List DataPoint
deriving DecidableEq, Repr

/-- storage.IndexEntry: block start instant, byte offset of the block, and
compressed payload length. -/
structure IndexEntry where
  timestamp : Int
  offset : Int
  length : Int
deriving DecidableEq, Repr

/-- storage.WarmFile: one append-only block file for a series, with its
in-memory index.  fileBytes models the bytes on disk; fileSize is the
separately tracked FileSize field. -/
structure WarmFile where
  seriesID : String
  fileBytes : List Byte
  fileSize : Int
  indexEntries : List IndexEntry
deriving DecidableEq, Repr

/-- storage.WarmStorage: the series-id to file map. -/
structure WarmState where
  files : List (String × WarmFile)
deriving DecidableEq, Repr

/-- The empty warm store (fresh data directory). -/
def WarmState.empty : WarmState := { files := [] }

/-- Ordered insertion of an index entry (sort.Slice by Timestamp.Before;
ties keep insertion order, matching the appended entry staying last). -/
def insertEntry (e : IndexEntry) : List IndexEntry → List IndexEntry
  | [] => [e]
  | f :: fs => if e.timestamp < f.timestamp then e :: f :: fs else f :: insertEntry e fs

/-- Sort index entries ascending by timestamp. -/
def sortEntries (l : List IndexEntry) : List IndexEntry :=
  l.foldr insertEntry []

/-- writeDataBlock: serialize and compress the block, append the 12-byte
header (millisecond timestamp, payload length) and the payload, grow
FileSize by 12 + length, record an index entry at the pre-write offset
with the full-precision start instant, and re-sort the index. -/
def writeDataBlock (enc : WarmDataBlock → List Byte) (wf : WarmFile)
    (block : WarmDataBlock) : WarmFile :=
  let compressed := enc block
  let tsMs : Int := nsToMs block.startTime
  let dataLength : Int := (compressed.length : Int)
  let offset := wf.fileSize
  { wf with
    fileBytes := wf.fileBytes
      ++ encodeLE 8 ((tsMs.emod (2 ^ 64)).toNat)
      ++ encodeLE 4 ((dataLength.emod (2 ^ 32)).toNat)
      ++ compressed
    fileSize := wf.fileSize + 12 + dataLength
    indexEntries := sortEntries (wf.indexEntries
      ++ [{ timestamp := block.startTime, offset := offset, length := dataLength }]) }

/-- getOrCreateFile: look the series up in the map, lazily creating an
empty file record. -/
def WarmState.getOrCreateFile (ws : WarmState) (seriesID : String) : WarmFile :=
  match ws.files.lookup seriesID with
  | some wf => wf
  | none => { seriesID := seriesID, fileBytes := [], fileSize := 0, indexEntries := [] }

/-- WarmStorage.WriteSeriesData: an empty point slice returns success
immediately; otherwise build the block record over the whole slice and
append it to the series file. -/
def WarmState.writeSeriesData (enc : WarmDataBlock → List Byte) (ws : WarmState)
    (seriesID : String) (labels : List (String × String)) (points : List DataPoint) :
    Except String WarmState :=
  match points with
  | [] => .ok ws
  | p0 :: _ =>
      let wf := ws.getOrCreateFile seriesID
      let block : WarmDataBlock :=
        { seriesID := seriesID
          labels := labels
          startTime := p0.timestamp
          endTime := (points.getLastD p0).timestamp
          count := points.length
          points := points }
      .ok { files := assocSet ws.files seriesID (writeDataBlock enc wf block) }

/-- loadIndexEntries scan loop: read a 12-byte header, record an entry at
the running offset, skip the payload, and advance the offset by the
payload length plus 24 (the constant the Go code uses for the header).
A clean end of stream terminates the scan; a short header or a short
payload is an error.  The loop consumes at least 12 bytes per iteration;
the fuel argument only bounds the iteration count so that the recursion is
structural, and scanEntries below supplies more than enough. -/
def scanGo : Nat → List Byte → Int → Except String (List IndexEntry)
  | 0, _, _ => .error "scan loop out of fuel"
  | fuel + 1, bytes, offset =>
    if bytes.length = 0 then .ok []
    else if bytes.length < 12 then .error "failed to read block header"
    else
      let tsMs := decodeInt64 (bytes.take 8)
      let len := decodeInt32 ((bytes.drop 8).take 4)
      let body := bytes.drop 12
      if body.length < len.toNat then .error "failed to skip block data"
      else
        match scanGo fuel (body.drop len.toNat) (offset + len + 24) with
        | .ok entries =>
            .ok ({ timestamp := msToNs tsMs, offset := offset, length := len } :: entries)
        | .error e => .error e

/-- loadIndexEntries: scan the whole file from offset 0 and sort the
reconstructed index by timestamp. -/
def loadIndexEntries (bytes : List Byte) : Except String (List IndexEntry) :=
  (scanGo (bytes.length + 1) bytes 0).map sortEntries

/-- Startup scan over the data directory: re-load every file from its
bytes, rebuilding the index; a file whose scan fails is logged and
skipped.  FileSize is re-read from stat. -/
def WarmState.reopen (ws : WarmState) : WarmState :=
  { files := ws.files.filterMap (fun e =>
      match loadIndexEntries e.2.fileBytes with
      | .ok entries =>
          some (e.1,
            { seriesID := e.1
              fileBytes := e.2.fileBytes
              fileSize := (e.2.fileBytes.length : Int)
              indexEntries := entries })
      | .error _ => none) }

/-- readDataBlock: seek to entry.offset + 12, read entry.length bytes
(io.ReadFull fails when fewer are available), then decompress and
deserialize the payload. -/
def readDataBlock (dec : List Byte → Option WarmDataBlock) (wf : WarmFile)
    (entry : IndexEntry) : Except String WarmDataBlock :=
  let start := entry.offset + 12
  if start < 0 ∨ wf.fileBytes.length < start.toNat + entry.length.toNat then
    .error "failed to read compressed data"
  else
    match dec ((wf.fileBytes.drop start.toNat).take entry.length.toNat) with
    | some b => .ok b
    | none => .error "failed to decompress or unmarshal block"

/-- Ordered insertion of a point by timestamp. -/
def insertPoint (p : DataPoint) : List DataPoint → List DataPoint
  | [] => [p]
  | q :: qs => if p.timestamp ≤ q.timestamp then p :: q :: qs else q :: insertPoint p qs

/-- Sort points ascending by timestamp (sort.Slice by Timestamp.Before). -/
def sortPoints (l : List DataPoint) : List DataPoint :=
  l.foldr insertPoint []

/-- The index-entry loop of readDataRange: break once an entry starts
after the query end, skip entries that start before the query start, and
otherwise read the block and keep its points inside the closed window. -/
def rdrLoop (dec : List Byte → Option WarmDataBlock) (wf : WarmFile)
    (start endT : Int) : List IndexEntry → Except String (List DataPoint)
  | [] => .ok []
  | e :: es =>
      if endT < e.timestamp then .ok []
      else if e.timestamp < start then rdrLoop dec wf start endT es
      else
        match readDataBlock dec wf e with
        | .error err => .error ("failed to read data block: " ++ err)
        | .ok block =>
            match rdrLoop dec wf start endT es with
            | .error err => .error err
            | .ok rest =>
                .ok ((block.points.filter
                  (fun p => decide (start ≤ p.timestamp) && decide (p.timestamp ≤ endT)))
                  ++ rest)

/-- readDataRange: run the index loop, then sort the collected points by
timestamp. -/
def readDataRange (dec : List Byte → Option WarmDataBlock) (wf : WarmFile)
    (start endT : Int) : Except String (List DataPoint) :=
  (rdrLoop dec wf start endT wf.indexEntries).map sortPoints

/-- WarmStorage.ReadSeriesRange: no file for the series yields an empty
result with no error. -/
def WarmState.readSeriesRange (dec : List Byte → Option WarmDataBlock) (ws : WarmState)
    (seriesID : String) (start endT : Int) : Except String (List DataPoint) :=
  match ws.files.lookup seriesID with
  | none => .ok []
  | some wf => readDataRange dec wf start endT

/-- Gauge for the block-index soundness property: decode the 12-byte
header found at a given byte offset of a file, if one is present. -/
def decodeHeaderAt (bytes : List Byte) (off : Nat) : Option (Int × Int) :=
  if bytes.length < off + 12 then none
  else some (msToNs (decodeInt64 ((bytes.drop off).take 8)),
             decodeInt32 (((bytes.drop off).drop 8).take 4))

/-! ## Query router: cross-tier merge -/

/-- One Go map assignment of the dedupe map in mergeSortedPoints: the
association list keys are nanosecond timestamps; a repeated key overwrites
the stored point. -/
def dedupInsert (acc : List (Int × DataPoint)) (p : DataPoint) : List (Int × DataPoint) :=
  if acc.any (fun e => e.1 == p.timestamp) then
    acc.map (fun e => if e.1 == p.timestamp then (e.1, p) else e)
  else acc ++ [(p.timestamp, p)]

/-- mergeSortedPoints: dedupe by full-nanosecond timestamp keeping the
value encountered last in iteration order, then sort ascending.  The
final sorted output is determined by the key-to-point map, so the model
fixes one traversal order. -/
def mergeSortedPoints (points : List DataPoint) : List DataPoint :=
  if points.length ≤ 1 then points
  else sortPoints ((points.foldl dedupInsert []).map Prod.snd)

/-- StorageEngine.GetRange: hot range first, then the warm range when the
warm tier is configured; a warm-tier failure returns nil points together
with the wrapped error; otherwise merge when more than one point was
collected.  The result models the Go (points, error) pair. -/
def StorageEngine.getRange (dec : List Byte → Option WarmDataBlock)
    (hot : HotStorage) (warm : Option WarmState) (seriesID : String)
    (start endT : Int) : List DataPoint × Option String :=
  let hotPoints :=
    match hot.getSeries seriesID with
    | some s => s.getRange start endT
    | none => []
  match warm with
  | none =>
      (if 1 < hotPoints.length then mergeSortedPoints hotPoints else hotPoints, none)
  | some ws =>
      match ws.readSeriesRange dec seriesID start endT with
      | .error e => ([], some ("failed to read from warm storage: " ++ e))
      | .ok warmPoints =>
          let allPoints := hotPoints ++ warmPoints
          (if 1 < allPoints.length then mergeSortedPoints allPoints else allPoints, none)

/-! ## A concrete payload codec

The gzip+JSON payload codec is opaque to every claim; concrete scenarios
instantiate the enc / dec parameters with the following executable codec,
which serializes the points of a block (the only payload content the read
path consumes) into the abstract payload bytes. -/

/-- Fold an integer into a natural number injectively. -/
def intToNat (i : Int) : Nat :=
  if 0 ≤ i then 2 * i.toNat else 2 * (-i).toNat - 1

/-- Inverse of intToNat. -/
def natToInt (n : Nat) : Int :=
  if n % 2 = 0 then (n / 2 : Nat) else -(((n + 1) / 2 : Nat) : Int)

/-- Tag-and-numerator slot of the float encoding: finite values carry
four times the folded numerator, the non-finite values take tags 1..3. -/
def fvalTag : FVal → Nat
  | .finite q => 4 * intToNat q.num
  | .posInf => 1
  | .negInf => 2
  | .nan => 3

/-- Denominator slot of the float encoding. -/
def fvalDen : FVal → Nat
  | .finite q => q.den
  | _ => 0

/-- Partial inverse of the (fvalTag, fvalDen) pair. -/
def natToFval (tag den : Nat) : Option FVal :=
  if tag = 1 then some .posInf
  else if tag = 2 then some .negInf
  else if tag = 3 then some .nan
  else if tag % 4 = 0 then some (.finite (mkRat (natToInt (tag / 4)) den))
  else none

/-- Serialize one point into three payload slots. -/
def encPoint (p : DataPoint) : List Byte :=
  [intToNat p.timestamp, fvalTag p.value, fvalDen p.value]

/-- Parse a payload back into points. -/
def decPoints : List Byte → Option (List DataPoint)
  | [] => some []
  | [_] => none
  | [_, _] => none
  | t :: v :: d :: rest =>
      match natToFval v d, decPoints rest with
      | some fv, some ps => some ({ timestamp := natToInt t, value := fv } :: ps)
      | _, _ => none

/-- Concrete block encoder: the payload carries the block's points. -/
def encB (b : WarmDataBlock) : List Byte :=
  b.points.flatMap encPoint

/-- Concrete block decoder: rebuild a block around the parsed points (the
read path consumes only the points). -/
def decB (bs : List Byte) : Option WarmDataBlock :=
  (decPoints bs).map (fun ps =>
    { seriesID := ""
      labels := []
      startTime := 0
      endTime := 0
      count := ps.length
      points := ps })

/-! ## Analytics detectors

Detector values are exact rationals.  The square root inside the z-score
statistics update is an opaque numeric routine passed as a parameter. -/

/-- analytics.AnomalyResult, as far as the detectors populate it.  The
expected range is none when the Go code leaves the zero Range. -/
structure AnomalyResult where
  isAnomaly : Bool
  score : ℚ
  threshold : ℚ
  method : String
  timestamp : Int
  value : ℚ
  expectedRange : Option (ℚ × ℚ)
deriving DecidableEq, Repr

/-- A point as the analytics package consumes it. -/
structure APoint where
  timestamp : Int
  value : ℚ
deriving DecidableEq, Repr

/-- analytics.ZScoreDetector state. -/
structure ZScoreDetector where
  threshold : ℚ
  windowSize : Nat
  mean : ℚ
  stdDev : ℚ
  values : List ℚ
deriving DecidableEq, Repr

/-- NewZScoreDetector. -/
def ZScoreDetector.new (threshold : ℚ) (windowSize : Nat) : ZScoreDetector :=
  { threshold := threshold, windowSize := windowSize, mean := 0, stdDev := 0, values := [] }

/-- updateStatistics: recompute mean and the sample standard deviation
(divisor n - 1, via the supplied square root), clamping a zero standard
deviation to 1e-10. -/
def ZScoreDetector.updateStatistics (fsqrt : ℚ → ℚ) (z : ZScoreDetector) : ZScoreDetector :=
  if z.values.length = 0 then z
  else
    let mean := z.values.sum / (z.values.length : ℚ)
    if z.values.length = 1 then { z with mean := mean, stdDev := 0 }
    else
      let variance :=
        ((z.values.map (fun v => (v - mean) * (v - mean))).sum) / ((z.values.length : ℚ) - 1)
      let sd := fsqrt variance
      { z with mean := mean, stdDev := if sd = 0 then 1 / 10 ^ 10 else sd }

/-- ZScoreDetector.Detect: with fewer than 3 values in the window, return
a non-anomalous zero-score result at once; otherwise score against the
cached statistics, append the value to the window (evicting the oldest
when full), recompute statistics, and report the expected range from the
updated statistics. -/
def ZScoreDetector.detect (fsqrt : ℚ → ℚ) (z : ZScoreDetector) (p : APoint) :
    AnomalyResult × ZScoreDetector :=
  if z.values.length < 3 then
    ({ isAnomaly := false, score := 0, threshold := z.threshold, method := "zscore",
       timestamp := p.timestamp, value := p.value, expectedRange := none }, z)
  else
    let zScore := |p.value - z.mean| / z.stdDev
    let isAnomaly := z.threshold < zScore
    let grown := z.values ++ [p.value]
    let windowed := if z.windowSize < grown.length then grown.tail else grown
    let z1 := ZScoreDetector.updateStatistics fsqrt { z with values := windowed }
    ({ isAnomaly := isAnomaly, score := zScore, threshold := z1.threshold,
       method := "zscore", timestamp := p.timestamp, value := p.value,
       expectedRange := some (z1.mean - z1.threshold * z1.stdDev,
                              z1.mean + z1.threshold * z1.stdDev) }, z1)

/-- Ordered insertion of a rational. -/
def insertQ (x : ℚ) : List ℚ → List ℚ
  | [] => [x]
  | y :: ys => if x ≤ y then x :: y :: ys else y :: insertQ x ys

/-- sort.Float64s: ascending sort of the copied window. -/
def sortQ (l : List ℚ) : List ℚ := l.foldr insertQ []

/-- The percentile helper: linear interpolation on a sorted sequence,
with Go's floor/ceil index arithmetic; empty yields 0, a single element
yields itself. -/
def percentileQ (sorted : List ℚ) (p : ℚ) : ℚ :=
  if sorted.length = 0 then 0
  else if sorted.length = 1 then sorted.getD 0 0
  else
    let index : ℚ := (p / 100) * ((sorted.length : ℚ) - 1)
    let lower := index.floor.toNat
    let upper := index.ceil.toNat
    if lower = upper then sorted.getD lower 0
    else
      let weight := index - (index.floor : ℚ)
      sorted.getD lower 0 * (1 - weight) + sorted.getD upper 0 * weight

/-- analytics.IQRDetector state. -/
structure IQRDetector where
  multiplier : ℚ
  windowSize : Nat
  values : List ℚ
deriving DecidableEq, Repr

/-- NewIQRDetector. -/
def IQRDetector.new (multiplier : ℚ) (windowSize : Nat) : IQRDetector :=
  { multiplier := multiplier, windowSize := windowSize, values := [] }

/-- IQRDetector.Detect: with fewer than 4 values, return a non-anomalous
zero-score result at once; otherwise compute quartile bounds on a sorted
copy, score by distance beyond the nearer bound over the IQR, and append
the value to the window. -/
def IQRDetector.detect (d : IQRDetector) (p : APoint) : AnomalyResult × IQRDetector :=
  if d.values.length < 4 then
    ({ isAnomaly := false, score := 0, threshold := d.multiplier, method := "iqr",
       timestamp := p.timestamp, value := p.value, expectedRange := none }, d)
  else
    let sorted := sortQ d.values
    let q1 := percentileQ sorted 25
    let q3 := percentileQ sorted 75
    let iqrRange := q3 - q1
    let lowerBound := q1 - d.multiplier * iqrRange
    let upperBound := q3 + d.multiplier * iqrRange
    let isAnomaly := p.value < lowerBound ∨ upperBound < p.value
    let score :=
      if p.value < lowerBound then (lowerBound - p.value) / iqrRange
      else if upperBound < p.value then (p.value - upperBound) / iqrRange
      else 0
    let grown := d.values ++ [p.value]
    let windowed := if d.windowSize < grown.length then grown.tail else grown
    ({ isAnomaly := isAnomaly, score := score, threshold := d.multiplier,
       method := "iqr", timestamp := p.timestamp, value := p.value,
       expectedRange := some (lowerBound, upperBound) },
     { d with values := windowed })

/-- analytics.MovingAverageDetector state. -/
structure MovingAverageDetector where
  threshold : ℚ
  windowSize : Nat
  deviationLimit : ℚ
  values : List ℚ
deriving DecidableEq, Repr

/-- NewMovingAverageDetector. -/
def MovingAverageDetector.new (threshold : ℚ) (windowSize : Nat) : MovingAverageDetector :=
  { threshold := threshold, windowSize := windowSize, deviationLimit := threshold,
    values := [] }

/-- MovingAverageDetector.Detect: with fewer than 2 values, return a
non-anomalous zero-score result at once; otherwise score the deviation
from the window mean against the mean absolute deviation (guarded by
1e-10) and append the value to the window. -/
def MovingAverageDetector.detect (d : MovingAverageDetector) (p : APoint) :
    AnomalyResult × MovingAverageDetector :=
  if d.values.length < 2 then
    ({ isAnomaly := false, score := 0, threshold := d.threshold,
       method := "moving_average", timestamp := p.timestamp, value := p.value,
       expectedRange := none }, d)
  else
    let average := d.values.sum / (d.values.length : ℚ)
    let mad := ((d.values.map (fun v => |v - average|)).sum) / (d.values.length : ℚ)
    let deviation := |p.value - average|
    let score := deviation / (mad + 1 / 10 ^ 10)
    let isAnomaly := d.threshold < score
    let grown := d.values ++ [p.value]
    let windowed := if d.windowSize < grown.length then grown.tail else grown
    ({ isAnomaly := isAnomaly, score := score, threshold := d.threshold,
       method := "moving_average", timestamp := p.timestamp, value := p.value,
       expectedRange := some (average - d.deviationLimit * mad,
                              average + d.deviationLimit * mad) },
     { d with values := windowed })

/-! ## Ingestion validator -/

/-- ingestion.MetricData. -/
structure MetricData where
  name : String
  value : FVal
  timestamp : Int
  labels : List (String × String)
deriving DecidableEq, Repr

/-- ingestion.DataValidator configuration. -/
structure DataValidator where
  maxValueRange : ℚ
  allowedMetricNames : List String
  requiredLabels : List String
deriving DecidableEq, Repr

/-- NewDataValidator: range cap 1e12, no whitelist, no required labels. -/
def DataValidator.new : DataValidator :=
  { maxValueRange := 10 ^ 12, allowedMetricNames := [], requiredLabels := [] }

/-- The validation failure reasons, in the order the checks run. -/
inductive ValidationError where
  | invalidName
  | missingLabel (label : String)
  | valueOutOfRange
  | futureTimestamp
  | pastTimestamp
deriving DecidableEq, Repr

/-- ValidateMetric, fail-fast in evaluation order: whitelist, required
labels, value range (IEEE comparisons against the configured cap), then
the future (1 hour) and past (7 days) timestamp tolerances around now. -/
def DataValidator.validateMetric (dv : DataValidator) (now : Int) (m : MetricData) :
    Option ValidationError :=
  if dv.allowedMetricNames.length ≠ 0 ∧ ¬ dv.allowedMetricNames.contains m.name then
    some .invalidName
  else
    match dv.requiredLabels.find? (fun lbl => (m.labels.lookup lbl).isNone) with
    | some lbl => some (.missingLabel lbl)
    | none =>
        if FVal.fgt m.value (.finite dv.maxValueRange)
            || FVal.flt m.value (.finite (-dv.maxValueRange)) then
          some .valueOutOfRange
        else if now + 3600 * 1000000000 < m.timestamp then
          some .futureTimestamp
        else if m.timestamp < now - 7 * 24 * 3600 * 1000000000 then
          some .pastTimestamp
        else none

/-! ## Concrete scenarios used by the claims -/

/-- S4 base instant: an exact multiple of one millisecond. -/
def c1T0 : Int := 1000000000000000

/-- S4 block: 100 points at one-second spacing with values 0..99. -/
def c1Points : List DataPoint :=
  (List.range 100).map (fun i =>
    { timestamp := c1T0 + (i : Int) * 1000000000, value := FVal.finite (i : ℚ) })

/-- Warm store after writing the S4 block. -/
def c1Written : WarmState :=
  match WarmState.writeSeriesData encB WarmState.empty "cpu" [] c1Points with
  | .ok w => w
  | .error _ => WarmState.empty

/-- Warm store after close and startup re-scan. -/
def c1Reopened : WarmState := c1Written.reopen

/-- Two-block scenario: first block instant. -/
def c2T0 : Int := 1000000000000000

/-- Two-block scenario: second block instant, one minute later. -/
def c2T1 : Int := 1000060000000000

/-- Warm store after writing two single-point blocks to one series. -/
def c2Written : WarmState :=
  match WarmState.writeSeriesData encB WarmState.empty "cpu" []
      [{ timestamp := c2T0, value := FVal.finite 1 }] with
  | .error _ => WarmState.empty
  | .ok w1 =>
      match WarmState.writeSeriesData encB w1 "cpu" []
          [{ timestamp := c2T1, value := FVal.finite 2 }] with
      | .error _ => w1
      | .ok w2 => w2

/-- Two-block scenario after close and startup re-scan. -/
def c2Reopened : WarmState := c2Written.reopen

/-- Cross-tier duplicate instant. -/
def c3T : Int := 1000000000000000

/-- Hot store holding (T, 7). -/
def c3Hot : HotStorage :=
  match (HotStorage.new 100 1000).addPoint "cpu" [] c3T (FVal.finite 7) 0 with
  | .ok h => h
  | .error _ => HotStorage.new 100 1000

/-- Warm store holding (T, 5). -/
def c3Warm : WarmState :=
  match WarmState.writeSeriesData encB WarmState.empty "cpu" []
      [{ timestamp := c3T, value := FVal.finite 5 }] with
  | .ok w => w
  | .error _ => WarmState.empty

/-- Two AddPoint calls on one series with the same timestamp: the second
is an update, not an insert. -/
def c4Run : Except String HotStorage :=
  ((HotStorage.new 10 10).addPoint "a" [] 0 (FVal.finite 1) 0).bind
    (fun h => h.addPoint "a" [] 0 (FVal.finite 2) 5)

/-- A series carrying no labels at all. -/
def c7Series : Series := { id := "x", labels := [], points := [], lastSeen := 0 }

/-- A store holding only that unlabelled series. -/
def c7Store : HotStorage :=
  { series := [("x", c7Series)], maxSeries := 10, maxPointsPerSeries := 10,
    totalPoints := 0 }

/-- Hot store holding (T, 7) for the warm-failure scenario. -/
def c9Hot : HotStorage :=
  match (HotStorage.new 100 1000).addPoint "cpu" [] 0 (FVal.finite 7) 0 with
  | .ok h => h
  | .error _ => HotStorage.new 100 1000

/-- A warm store whose only index entry addresses bytes past the end of
its file, so the block read fails. -/
def c9BadWarm : WarmState :=
  { files := [("cpu",
      { seriesID := "cpu", fileBytes := [], fileSize := 0,
        indexEntries := [{ timestamp := 0, offset := 0, length := 5 }] })] }

/-- A sequence of Series.AddPoint calls, each a (timestamp, value, now)
triple, applied from the left. -/
def runAdds (s : Series) (ops : List (Int × FVal × Int)) : Series :=
  ops.foldl (fun acc op => acc.addPoint op.1 op.2.1 op.2.2) s

/-! ## Claims -/

set_option maxRecDepth 4000 in
set_option maxHeartbeats 2000000 in
/-- Claim C1: the spec requires read_range to visit every block whose
index start_time is at most the query end and keep its in-range points, so
that after writing one block of 100 one-second-spaced points the window
covering offsets 10..20 seconds returns 11 points.  The code instead skips
every index entry whose start_time lies before the query start, so the S4
round trip returns no points at all, even though the single index entry
starts no later than the query end and its block decodes to exactly 11
points inside the window.  Evaluation of the embedded code at that failing
input. -/
theorem claim_C1_eval :
    c1Reopened.readSeriesRange decB "cpu" (c1T0 + 10 * 1000000000) (c1T0 + 20 * 1000000000)
      = .ok []
    ∧ ((c1Reopened.files.lookup "cpu").map (fun wf => wf.indexEntries.map IndexEntry.timestamp))
      = some [c1T0]
    ∧ ((c1Reopened.files.lookup "cpu").map (fun wf =>
        (readDataBlock decB wf { timestamp := c1T0, offset := 0, length := 300 }).map
          (fun b => (b.points.filter (fun p =>
            decide (c1T0 + 10 * 1000000000 ≤ p.timestamp)
              && decide (p.timestamp ≤ c1T0 + 20 * 1000000000))).length)))
      = some (.ok 11) := by
  refine ⟨?_, ?_, ?_⟩ <;> rfl

set_option maxRecDepth 4000 in
set_option maxHeartbeats 2000000 in
/-- Claim C2: after the startup scan, index offsets must address blocks
whose decoded start_time matches the entry timestamp, and previously
written points must stay retrievable.  Blocks occupy 12 header bytes plus
the payload, but the scan advances its offset by payload length plus 24,
so with two 3-byte-payload blocks the second entry gets offset 27 while
the second block really starts at byte 15: no header decodes at offset 27,
and the read of the second block fails after reopen although it succeeded
before.  Evaluation of the embedded code at that failing input. -/
theorem claim_C2_eval :
    ((c2Reopened.files.lookup "cpu").map WarmFile.indexEntries)
      = some [{ timestamp := c2T0, offset := 0, length := 3 },
              { timestamp := c2T1, offset := 27, length := 3 }]
    ∧ ((c2Reopened.files.lookup "cpu").map (fun wf => decodeHeaderAt wf.fileBytes 27))
      = some none
    ∧ ((c2Reopened.files.lookup "cpu").map (fun wf => decodeHeaderAt wf.fileBytes 15))
      = some (some (c2T1, 3))
    ∧ c2Written.readSeriesRange decB "cpu" c2T1 c2T1
      = .ok [{ timestamp := c2T1, value := FVal.finite 2 }]
    ∧ c2Reopened.readSeriesRange decB "cpu" c2T1 c2T1
      = .error "failed to read data block: failed to read compressed data" := by
  refine ⟨?_, ?_, ?_, ?_, ?_⟩ <;> rfl

set_option maxRecDepth 2000 in
/-- Claim C4: the counter-consistency invariant totalPoints = sum of the
series sizes must survive AddPoint, with the counter bumped only on true
inserts.  The code increments totalPoints before delegating to
Series.AddPoint, also when the append is a duplicate-timestamp update, so
two AddPoint calls at the same timestamp leave totalPoints = 2 with a
single stored point.  Evaluation of the embedded code at that failing
input. -/
theorem claim_C4_eval :
    c4Run.map (fun h => (h.totalPoints, h.sumSizes)) = .ok (2, 1)
    ∧ c4Run.map (fun h => decide (h.totalPoints = h.sumSizes)) = .ok false := by
  refine ⟨?_, ?_⟩ <;> rfl

/-- Claim C5, counterexample: the claim says ValidateMetric rejects every
non-finite value, yet a NaN value passes validation, because both IEEE
comparisons against the range cap are false for NaN and no explicit NaN
check exists. -/
theorem claim_C5_counterexample :
    DataValidator.new.validateMetric 0
      { name := "m", value := FVal.nan, timestamp := 0, labels := [] } = none := by
  rfl

/-- Claim C5, amended: for every metric passing the name and label checks,
the validator rejects finite values with magnitude above max_value_range
and rejects both infinities with ValueOutOfRange, but it accepts NaN
through the range check (NaN is never rejected as out of range). -/
theorem claim_C5_amended (dv : DataValidator) (now : Int) (m : MetricData)
    (hname : ¬ (dv.allowedMetricNames.length ≠ 0 ∧ ¬ dv.allowedMetricNames.contains m.name))
    (hlab : dv.requiredLabels.find? (fun lbl => (m.labels.lookup lbl).isNone) = none) :
    (m.value = .posInf → dv.validateMetric now m = some .valueOutOfRange)
    ∧ (m.value = .negInf → dv.validateMetric now m = some .valueOutOfRange)
    ∧ (∀ q : ℚ, m.value = .finite q → dv.maxValueRange < |q| →
        dv.validateMetric now m = some .valueOutOfRange)
    ∧ (m.value = .nan → dv.validateMetric now m ≠ some .valueOutOfRange) := by
  unfold DataValidator.validateMetric
  rw [if_neg hname, hlab]
  refine ⟨?_, ?_, ?_, ?_⟩
  · intro hv; rw [hv]; rfl
  · intro hv; rw [hv]; rfl
  · intro q hv hq
    rw [hv]
    have hb : (FVal.fgt (.finite q) (.finite dv.maxValueRange)
        || FVal.flt (.finite q) (.finite (-dv.maxValueRange))) = true := by
      rcases lt_abs.mp hq with h | h
      · simp [FVal.fgt, FVal.flt, h]
      · simp [FVal.fgt, FVal.flt, lt_neg.mp h]
    rw [hb]
    rfl
  · intro hv
    rw [hv]
    have hb : (FVal.fgt .nan (.finite dv.maxValueRange)
        || FVal.flt .nan (.finite (-dv.maxValueRange))) = false := by
      simp [FVal.fgt, FVal.flt]
    rw [hb]
    simp only [Bool.false_eq_true, if_false]
    split
    · simp
    · split <;> simp

/-- Claim C5, witness: the amended statement at concrete inputs - the
infinities and an over-range finite value are rejected, NaN is not. -/
theorem claim_C5_witness :
    DataValidator.new.validateMetric 0
      { name := "m", value := FVal.posInf, timestamp := 0, labels := [] }
      = some .valueOutOfRange
    ∧ DataValidator.new.validateMetric 0
      { name := "m", value := FVal.negInf, timestamp := 0, labels := [] }
      = some .valueOutOfRange
    ∧ DataValidator.new.validateMetric 0
      { name := "m", value := FVal.finite (2 * 10 ^ 12), timestamp := 0, labels := [] }
      = some .valueOutOfRange
    ∧ DataValidator.new.validateMetric 0
      { name := "m", value := FVal.nan, timestamp := 0, labels := [] }
      ≠ some .valueOutOfRange :=
  ⟨(claim_C5_amended DataValidator.new 0
      { name := "m", value := FVal.posInf, timestamp := 0, labels := [] }
      (by decide) rfl).1 rfl,
   (claim_C5_amended DataValidator.new 0
      { name := "m", value := FVal.negInf, timestamp := 0, labels := [] }
      (by decide) rfl).2.1 rfl,
   (claim_C5_amended DataValidator.new 0
      { name := "m", value := FVal.finite (2 * 10 ^ 12), timestamp := 0, labels := [] }
      (by decide) rfl).2.2.1 (2 * 10 ^ 12) rfl (by norm_num [DataValidator.new]),
   (claim_C5_amended DataValidator.new 0
      { name := "m", value := FVal.nan, timestamp := 0, labels := [] }
      (by decide) rfl).2.2.2 rfl⟩

/-- Claim C7, counterexample: the claim says a series missing a filter key
fails the match even when the filter value is the empty string, but the Go
zero-value map read makes an absent key compare equal to an empty filter
value, so an unlabelled series matches the filter a="" and is returned. -/
theorem claim_C7_counterexample :
    matchesLabels [] [("a", "")] = true
    ∧ c7Store.getSeriesByLabels [("a", "")] = [c7Series] := by
  refine ⟨?_, ?_⟩ <;> rfl

/-- Claim C7, amended: match returns exactly the series whose label map,
with missing keys read as the empty string, agrees with every filter pair
(so a missing key fails the match except against an empty-string filter
value), and the empty filter matches all series. -/
theorem claim_C7_amended (hs : HotStorage) (filters : List (String × String)) (s : Series) :
    (s ∈ hs.getSeriesByLabels filters ↔
      ∃ id, (id, s) ∈ hs.series ∧ ∀ kv ∈ filters, mapGet s.labels kv.1 = kv.2)
    ∧ hs.getSeriesByLabels [] = hs.series.map Prod.snd := by
  constructor
  · unfold HotStorage.getSeriesByLabels
    simp only [List.mem_map, List.mem_filter, matchesLabels, List.all_eq_true,
      beq_iff_eq]
    constructor
    · rintro ⟨⟨id, s0⟩, ⟨hmem, hmatch⟩, rfl⟩
      exact ⟨id, hmem, hmatch⟩
    · rintro ⟨id, hmem, hmatch⟩
      exact ⟨(id, s), ⟨hmem, hmatch⟩, rfl⟩
  · unfold HotStorage.getSeriesByLabels
    rw [List.filter_eq_self.mpr]
    intro a _
    rfl

/-- Claim C7, witness: the amended statement applied at the concrete
store. -/
theorem claim_C7_witness :
    c7Store.getSeriesByLabels [] = c7Store.series.map Prod.snd :=
  (claim_C7_amended c7Store [] c7Series).2

/-- Claim C8, counterexample: the claim says a warm-up Detect still
appends the detected value to the ring (the ring grows by one), but all
three detectors return early without touching the ring: detecting on an
empty ring leaves it empty. -/
theorem claim_C8_counterexample :
    ((((⟨2, 50, 0, 0, []⟩ : ZScoreDetector).detect (fun q => q)
        { timestamp := 0, value := 5 }).2).values = [])
    ∧ ((((⟨3/2, 50, []⟩ : IQRDetector).detect { timestamp := 0, value := 5 }).2).values = [])
    ∧ ((((⟨3, 20, 3, []⟩ : MovingAverageDetector).detect
        { timestamp := 0, value := 5 }).2).values = []) := by
  refine ⟨?_, ?_, ?_⟩ <;> rfl

/-- Claim C8, amended: below the method minimum (3 for z-score, 4 for IQR,
2 for moving-MAD) Detect returns is_anomaly false with score 0 and leaves
the detector state - ring and statistics - completely unchanged; the
detected value is not appended. -/
theorem claim_C8_amended :
    (∀ (fsqrt : ℚ → ℚ) (z : ZScoreDetector) (p : APoint), z.values.length < 3 →
      z.detect fsqrt p
        = ({ isAnomaly := false, score := 0, threshold := z.threshold, method := "zscore",
             timestamp := p.timestamp, value := p.value, expectedRange := none }, z))
    ∧ (∀ (d : IQRDetector) (p : APoint), d.values.length < 4 →
      d.detect p
        = ({ isAnomaly := false, score := 0, threshold := d.multiplier, method := "iqr",
             timestamp := p.timestamp, value := p.value, expectedRange := none }, d))
    ∧ (∀ (d : MovingAverageDetector) (p : APoint), d.values.length < 2 →
      d.detect p
        = ({ isAnomaly := false, score := 0, threshold := d.threshold,
             method := "moving_average", timestamp := p.timestamp, value := p.value,
             expectedRange := none }, d)) := by
  refine ⟨?_, ?_, ?_⟩
  · intro fsqrt z p h
    unfold ZScoreDetector.detect
    rw [if_pos h]
  · intro d p h
    unfold IQRDetector.detect
    rw [if_pos h]
  · intro d p h
    unfold MovingAverageDetector.detect
    rw [if_pos h]

/-- Claim C8, witness: the amended statement at concrete fresh
detectors. -/
theorem claim_C8_witness :
    (⟨2, 50, 0, 0, []⟩ : ZScoreDetector).detect (fun q => q) { timestamp := 0, value := 5 }
      = ({ isAnomaly := false, score := 0, threshold := 2, method := "zscore",
           timestamp := 0, value := 5, expectedRange := none },
         (⟨2, 50, 0, 0, []⟩ : ZScoreDetector))
    ∧ (⟨3/2, 50, []⟩ : IQRDetector).detect { timestamp := 0, value := 5 }
      = ({ isAnomaly := false, score := 0, threshold := 3/2, method := "iqr",
           timestamp := 0, value := 5, expectedRange := none },
         (⟨3/2, 50, []⟩ : IQRDetector))
    ∧ (⟨3, 20, 3, []⟩ : MovingAverageDetector).detect { timestamp := 0, value := 5 }
      = ({ isAnomaly := false, score := 0, threshold := 3,
           method := "moving_average", timestamp := 0, value := 5,
           expectedRange := none },
         (⟨3, 20, 3, []⟩ : MovingAverageDetector)) :=
  ⟨claim_C8_amended.1 _ _ _ (by decide),
   claim_C8_amended.2.1 _ _ (by decide),
   claim_C8_amended.2.2 _ _ (by decide)⟩

/-- Claim C9, counterexample: the claim says a failing warm read returns
the hot-tier samples together with the error, but the code returns nil
points with the error: the hot tier holds (0, 7) inside the window, yet
the cross-tier read yields no points at all. -/
theorem claim_C9_counterexample :
    (StorageEngine.getRange decB c9Hot (some c9BadWarm) "cpu" 0 0).1 = []
    ∧ ((StorageEngine.getRange decB c9Hot (some c9BadWarm) "cpu" 0 0).2).isSome = true
    ∧ (c9Hot.getSeries "cpu").map (fun s => s.getRange 0 0)
      = some [{ timestamp := 0, value := FVal.finite 7 }] := by
  refine ⟨?_, ?_, ?_⟩ <;> rfl

/-- Claim C9, amended: whenever the warm-tier read fails, the cross-tier
range read discards the hot-tier result and returns nil points together
with the wrapped error. -/
theorem claim_C9_amended (dec : List Byte → Option WarmDataBlock) (hot : HotStorage)
    (ws : WarmState) (seriesID : String) (start endT : Int) (e : String)
    (h : ws.readSeriesRange dec seriesID start endT = .error e) :
    StorageEngine.getRange dec hot (some ws) seriesID start endT
      = ([], some ("failed to read from warm storage: " ++ e)) := by
  simp only [StorageEngine.getRange]
  rw [h]

/-- Claim C9, witness: the amended statement at a concrete failing warm
store. -/
theorem claim_C9_witness :
    StorageEngine.getRange decB c9Hot (some c9BadWarm) "cpu" 0 0
      = ([], some ("failed to read from warm storage: "
          ++ "failed to read data block: failed to read compressed data")) :=
  claim_C9_amended decB c9Hot c9BadWarm "cpu" 0 0 _ rfl

/-- Claim C10: WriteSeriesData with an empty point slice returns success
and leaves the whole warm store untouched: no file record is created or
changed, no bytes are appended, no index entry is added. -/
theorem claim_C10_empty_write (enc : WarmDataBlock → List Byte) (ws : WarmState)
    (seriesID : String) (labels : List (String × String)) :
    ws.writeSeriesData enc seriesID labels [] = .ok ws :=
  rfl

/-! ## Lemmas about the cross-tier merge -/

/-- Ordered point insertion is a permutation of consing. -/
theorem insertPoint_perm (p : DataPoint) (l : List DataPoint) :
    (insertPoint p l).Perm (p :: l) := by
  induction l with
  | nil => simp [insertPoint]
  | cons q qs ih =>
      unfold insertPoint
      split
      · exact List.Perm.refl _
      · exact ((ih.cons q).trans (List.Perm.swap p q qs)).symm.symm

/-- The point sort is a permutation. -/
theorem sortPoints_perm (l : List DataPoint) : (sortPoints l).Perm l := by
  induction l with
  | nil => exact List.Perm.refl _
  | cons p ps ih =>
      exact (insertPoint_perm p (sortPoints ps)).trans (ih.cons p)

/-- find? returns the head of the filtered list. -/
theorem find?_eq_head?_filter {α : Type} (q : α → Bool) (l : List α) :
    l.find? q = (l.filter q).head? := by
  induction l with
  | nil => rfl
  | cons a as ih =>
      by_cases h : q a
      · simp [List.find?, List.filter, h]
      · simp only [List.find?, List.filter, h]
        rw [ih]

/-- dedupInsert preserves the key consistency of the dedupe map: every
stored pair's key is its point's timestamp. -/
theorem dedupInsert_keyInv (acc : List (Int × DataPoint)) (p : DataPoint)
    (h : ∀ e ∈ acc, e.2.timestamp = e.1) :
    ∀ e ∈ dedupInsert acc p, e.2.timestamp = e.1 := by
  intro e he
  unfold dedupInsert at he
  split at he
  · rcases List.mem_map.mp he with ⟨f, hf, hfe⟩
    by_cases hk : f.1 == p.timestamp
    · simp only [hk, if_true] at hfe
      subst hfe
      simpa using (beq_iff_eq.mp hk).symm
    · simp only [hk, if_false] at hfe
      subst hfe
      exact h f hf
  · rcases List.mem_append.mp he with hacc | hnew
    · exact h e hacc
    · simp only [List.mem_singleton] at hnew
      subst hnew
      rfl

/-- dedupInsert preserves distinctness of the dedupe map keys. -/
theorem dedupInsert_nodupKeys (acc : List (Int × DataPoint)) (p : DataPoint)
    (h : (acc.map Prod.fst).Nodup) :
    ((dedupInsert acc p).map Prod.fst).Nodup := by
  unfold dedupInsert
  split
  · have hkeys : (acc.map (fun e => if e.1 == p.timestamp then (e.1, p) else e)).map Prod.fst
        = acc.map Prod.fst := by
      rw [List.map_map]
      refine List.map_congr_left ?_
      intro e _
      simp only [Function.comp]
      split <;> rfl
    rw [hkeys]
    exact h
  · rename_i hany
    rw [List.map_append]
    refine List.Nodup.append h (by simp) ?_
    intro k hk hk1
    simp only [List.map_cons, List.map_nil, List.mem_singleton] at hk1
    rcases List.mem_map.mp hk with ⟨e, he, hke⟩
    have : acc.any (fun e => e.1 == p.timestamp) = true :=
      List.any_eq_true.mpr ⟨e, he, by rw [hke, hk1]; exact beq_self_eq_true _⟩
    simp [this] at hany

/-- Replacing the binding of one key leaves every key in place, so
filtering the replaced map by a key commutes with the replacement. -/
theorem filter_key_map_replace (as : List (Int × DataPoint)) (p : DataPoint) (k : Int) :
    (as.map (fun e => if e.1 == p.timestamp then (e.1, p) else e)).filter
        (fun e => e.1 == k)
      = (as.filter (fun e => e.1 == k)).map
          (fun e => if e.1 == p.timestamp then (e.1, p) else e) := by
  rw [List.filter_map]
  congr 1
  refine List.filter_congr ?_
  intro e _
  simp only [Function.comp]
  split <;> rfl

/-- In a map with distinct keys, a key that occurs at all occurs in
exactly one binding. -/
theorem filter_key_nodup (acc : List (Int × DataPoint)) (k : Int)
    (hnd : (acc.map Prod.fst).Nodup) (hany : acc.any (fun e => e.1 == k) = true) :
    ∃ w ∈ acc, acc.filter (fun e => e.1 == k) = [w] := by
  induction acc with
  | nil => simp at hany
  | cons a as ih =>
      simp only [List.map_cons, List.nodup_cons] at hnd
      by_cases hk : a.1 == k
      · refine ⟨a, List.mem_cons_self a as, ?_⟩
        have hnone : as.filter (fun e => e.1 == k) = [] := by
          refine List.filter_eq_nil_iff.mpr ?_
          intro e he hek
          exact hnd.1 (List.mem_map.mpr ⟨e, he,
            by rw [beq_iff_eq.mp hek, ← beq_iff_eq.mp hk]⟩)
        simp [List.filter_cons, hk, hnone]
      · have hany1 : as.any (fun e => e.1 == k) = true := by
          simp only [List.any_cons, hk, Bool.false_or] at hany
          exact hany
        rcases ih hnd.2 hany1 with ⟨w, hw, hfw⟩
        exact ⟨w, List.mem_cons_of_mem a hw, by simp [List.filter_cons, hk, hfw]⟩

/-- After inserting a point, filtering the dedupe map for that point's
timestamp yields exactly that point (keys of the map are distinct). -/
theorem dedupInsert_filter_self (acc : List (Int × DataPoint)) (p : DataPoint)
    (hnd : (acc.map Prod.fst).Nodup) :
    ((dedupInsert acc p).filter (fun e => e.1 == p.timestamp)).map Prod.snd = [p] := by
  unfold dedupInsert
  split
  · rename_i hany
    rcases filter_key_nodup acc p.timestamp hnd hany with ⟨w, _, hfw⟩
    have hwmem : w ∈ acc.filter (fun e => e.1 == p.timestamp) := by
      rw [hfw]
      exact List.mem_singleton_self w
    have hwk := (List.mem_filter.mp hwmem).2
    rw [filter_key_map_replace, hfw]
    simp [beq_iff_eq.mp hwk]
  · rename_i hany
    have hnone : acc.filter (fun e => e.1 == p.timestamp) = [] := by
      refine List.filter_eq_nil_iff.mpr ?_
      intro e he hek
      exact hany (List.any_eq_true.mpr ⟨e, he, hek⟩)
    simp [List.filter_append, hnone]

/-- dedupInsert does not disturb the bindings of other keys. -/
theorem dedupInsert_filter_other (acc : List (Int × DataPoint)) (p : DataPoint)
    (T : Int) (hT : T ≠ p.timestamp) :
    (dedupInsert acc p).filter (fun e => e.1 == T)
      = acc.filter (fun e => e.1 == T) := by
  unfold dedupInsert
  split
  · rw [filter_key_map_replace]
    have hid : ∀ e ∈ acc.filter (fun e => e.1 == T),
        (if e.1 == p.timestamp then (e.1, p) else e) = e := by
      intro e he
      have hek := (List.mem_filter.mp he).2
      have hne : (e.1 == p.timestamp) = false := by
        refine beq_eq_false_iff_ne.mpr ?_
        rw [beq_iff_eq.mp hek]
        exact fun hc => hT hc
      simp [hne]
    calc (acc.filter (fun e => e.1 == T)).map
          (fun e => if e.1 == p.timestamp then (e.1, p) else e)
        = (acc.filter (fun e => e.1 == T)).map id := List.map_congr_left hid
      _ = acc.filter (fun e => e.1 == T) := List.map_id _
  · have hnew : (((p.timestamp, p) : Int × DataPoint).1 == T) = false :=
      beq_eq_false_iff_ne.mpr (fun hc => hT hc.symm)
    simp [List.filter_append, hnew]

/-- The dedupe fold keeps, for each timestamp key, exactly the point
written last in traversal order; keys untouched by the traversal keep
their accumulator binding. -/
theorem foldl_dedup_filter (T : Int) (l : List DataPoint) :
    ∀ acc : List (Int × DataPoint), (acc.map Prod.fst).Nodup →
      ((l.foldl dedupInsert acc).filter (fun e => e.1 == T)).map Prod.snd
        = (l.reverse.find? (fun p => p.timestamp == T)).elim
            ((acc.filter (fun e => e.1 == T)).map Prod.snd) (fun p => [p]) := by
  induction l with
  | nil => intro acc _; simp
  | cons p ps ih =>
      intro acc hnd
      have step := ih (dedupInsert acc p) (dedupInsert_nodupKeys acc p hnd)
      rw [List.foldl_cons, step, List.reverse_cons, List.find?_append]
      cases hfind : ps.reverse.find? (fun q => q.timestamp == T) with
      | some x => simp [Option.or]
      | none =>
          simp only [Option.or, Option.elim]
          by_cases hq : p.timestamp == T
          · have hTp : T = p.timestamp := (beq_iff_eq.mp hq).symm
            subst hTp
            simp [List.find?, hq, dedupInsert_filter_self acc p hnd]
          · simp [List.find?, hq, dedupInsert_filter_other acc p T
              (fun hc => by simp [hc] at hq)]

/-- The dedupe fold keeps keys consistent with the stored timestamps. -/
theorem foldl_dedup_keyInv (l : List DataPoint) :
    ∀ acc : List (Int × DataPoint), (∀ e ∈ acc, e.2.timestamp = e.1) →
      ∀ e ∈ l.foldl dedupInsert acc, e.2.timestamp = e.1 := by
  induction l with
  | nil => intro acc h; exact h
  | cons p ps ih =>
      intro acc h
      exact ih (dedupInsert acc p) (dedupInsert_keyInv acc p h)

/-- Claim C3, counterexample: with the hot tier holding (T, 7) and the
warm tier holding (T, 5), the cross-tier read returns exactly one sample
at T whose value is 5, the warm value - not the hot value 7 the claim
requires - because the map-based dedupe keeps the source appended last
(warm) and the merge iterates hot before warm. -/
theorem claim_C3_counterexample :
    StorageEngine.getRange decB c3Hot (some c3Warm) "cpu"
        (c3T - 1000000000) (c3T + 1000000000)
      = ([{ timestamp := c3T, value := FVal.finite 5 }], none)
    ∧ (StorageEngine.getRange decB c3Hot (some c3Warm) "cpu"
        (c3T - 1000000000) (c3T + 1000000000)).1
      ≠ [{ timestamp := c3T, value := FVal.finite 7 }] := by
  refine ⟨?_, ?_⟩
  · rfl
  · have h1 : (StorageEngine.getRange decB c3Hot (some c3Warm) "cpu"
        (c3T - 1000000000) (c3T + 1000000000)).1
        = [{ timestamp := c3T, value := FVal.finite 5 }] := by rfl
    rw [h1]
    decide

/-- Claim C3, amended: when the hot slice and the warm slice each carry
exactly one sample at nanosecond timestamp T, the merged cross-tier result
contains exactly one sample at T and its value is the warm tier's value:
the dedupe keeps the occurrence traversed last, and GetRange appends the
warm points after the hot points. -/
theorem claim_C3_amended (hotPoints warmPoints : List DataPoint) (T : Int) (hv wv : FVal)
    (hh : hotPoints.filter (fun p => p.timestamp == T) = [⟨T, hv⟩])
    (hw : warmPoints.filter (fun p => p.timestamp == T) = [⟨T, wv⟩]) :
    (mergeSortedPoints (hotPoints ++ warmPoints)).filter (fun p => p.timestamp == T)
      = [⟨T, wv⟩] := by
  have hhot1 : 1 ≤ hotPoints.length := by
    have := List.length_filter_le (fun p => p.timestamp == T) hotPoints
    rw [hh] at this
    simpa using this
  have hwarm1 : 1 ≤ warmPoints.length := by
    have := List.length_filter_le (fun p => p.timestamp == T) warmPoints
    rw [hw] at this
    simpa using this
  have hlen : ¬ (hotPoints ++ warmPoints).length ≤ 1 := by
    rw [List.length_append]
    omega
  unfold mergeSortedPoints
  rw [if_neg hlen]
  set l := hotPoints ++ warmPoints with hl
  have hperm := (sortPoints_perm ((l.foldl dedupInsert []).map Prod.snd)).filter
    (fun p => p.timestamp == T)
  have hkey : ∀ e ∈ l.foldl dedupInsert [], e.2.timestamp = e.1 :=
    foldl_dedup_keyInv l [] (by intro e he; cases he)
  have hfm : ((l.foldl dedupInsert []).map Prod.snd).filter (fun p => p.timestamp == T)
      = ((l.foldl dedupInsert []).filter (fun e => e.1 == T)).map Prod.snd := by
    rw [List.filter_map]
    congr 1
    refine List.filter_congr ?_
    intro e he
    simp only [Function.comp]
    rw [hkey e he]
  have hfold := foldl_dedup_filter T l [] (by simp)
  have hfind : l.reverse.find? (fun p => p.timestamp == T) = some ⟨T, wv⟩ := by
    rw [hl, List.reverse_append, List.find?_append]
    have : warmPoints.reverse.find? (fun p => p.timestamp == T) = some ⟨T, wv⟩ := by
      rw [find?_eq_head?_filter, List.filter_reverse, hw]
      rfl
    rw [this]
    rfl
  rw [hfold, hfind] at hfm
  simp only [Option.elim] at hfm
  refine List.perm_singleton.mp ?_
  rw [hfm] at hperm
  exact hperm

/-- Claim C3, witness: the amended statement at the concrete S5 inputs -
hot (T, 7) traversed first, warm (T, 5) traversed last: the merge keeps
(T, 5). -/
theorem claim_C3_witness :
    (mergeSortedPoints ([{ timestamp := 0, value := FVal.finite 7 }]
        ++ [{ timestamp := 0, value := FVal.finite 5 }])).filter
      (fun p => p.timestamp == 0)
      = [{ timestamp := 0, value := FVal.finite 5 }] :=
  claim_C3_amended [{ timestamp := 0, value := FVal.finite 7 }]
    [{ timestamp := 0, value := FVal.finite 5 }] 0 (FVal.finite 7) (FVal.finite 5)
    (by rfl) (by rfl)

/-! ## Lemmas about the sorted insert of Series.AddPoint -/

/-- The binary-search index on a cons cell. -/
theorem upperIdx_cons (a : DataPoint) (l : List DataPoint) (t : Int) :
    upperIdx (a :: l) t = if a.timestamp ≤ t then upperIdx l t + 1 else 0 := by
  simp only [upperIdx, List.takeWhile_cons]
  by_cases h : a.timestamp ≤ t
  · simp [h]
  · simp [h]

/-- When the search lands at index 0 of a sorted list, every point lies
strictly after t. -/
theorem upperIdx_zero (l : List DataPoint) (t : Int)
    (hs : List.Sorted (· < ·) (l.map DataPoint.timestamp))
    (h0 : upperIdx l t = 0) : ∀ y ∈ l, t < y.timestamp := by
  intro y hy
  cases l with
  | nil => cases hy
  | cons a as =>
      rw [upperIdx_cons] at h0
      by_cases hat : a.timestamp ≤ t
      · simp [hat] at h0
      · push_neg at hat
        rcases List.mem_cons.mp hy with rfl | hmem
        · exact hat
        · exact hat.trans (List.rel_of_sorted_cons (by simpa using hs) _
            (List.mem_map_of_mem _ hmem))

/-- A positive search index exposes a head point with timestamp at
most t. -/
theorem upperIdx_pos (l : List DataPoint) (t : Int) (h : 0 < upperIdx l t) :
    ∃ y ys, l = y :: ys ∧ y.timestamp ≤ t := by
  cases l with
  | nil => simp [upperIdx] at h
  | cons a as =>
      rw [upperIdx_cons] at h
      by_cases hat : a.timestamp ≤ t
      · exact ⟨a, as, rfl, hat⟩
      · simp [hat] at h

/-- With a positive search index in the tail, the duplicate test of the
cons cell coincides with the duplicate test of the tail. -/
theorem isDupAt_cons_pos (a : DataPoint) (l : List DataPoint) (t : Int)
    (hat : a.timestamp ≤ t) (hu : 0 < upperIdx l t) :
    isDupAt (a :: l) t = isDupAt l t := by
  unfold isDupAt
  obtain ⟨u, hu1⟩ : ∃ u, upperIdx l t = u + 1 := ⟨upperIdx l t - 1, by omega⟩
  simp only [upperIdx_cons, hat, if_true, hu1]
  simp [Nat.add_sub_cancel]

/-- The insert of Series.AddPoint preserves strict timestamp order. -/
theorem addPointList_sorted (t : Int) (v : FVal) :
    ∀ l : List DataPoint, List.Sorted (· < ·) (l.map DataPoint.timestamp) →
      List.Sorted (· < ·) ((addPointList l t v).map DataPoint.timestamp) := by
  intro l
  induction l with
  | nil =>
      intro _
      simp [addPointList, isDupAt, upperIdx]
  | cons a as ih =>
      intro hs
      have hs' : List.Sorted (· < ·) (as.map DataPoint.timestamp) :=
        (List.sorted_cons.mp (by simpa using hs)).2
      have hrel : ∀ y ∈ as, a.timestamp < y.timestamp := fun y hy =>
        List.rel_of_sorted_cons (by simpa using hs) _ (List.mem_map_of_mem _ hy)
      by_cases hat : a.timestamp ≤ t
      · by_cases hu : 0 < upperIdx as t
        · have hat1 : a.timestamp < t := by
            rcases upperIdx_pos as t hu with ⟨y, ys, hys, hyt⟩
            exact lt_of_lt_of_le (hrel y (by rw [hys]; exact List.mem_cons_self y ys)) hyt
          have hdupeq := isDupAt_cons_pos a as t hat hu
          obtain ⟨u, hu1⟩ : ∃ u, upperIdx as t = u + 1 := ⟨upperIdx as t - 1, by omega⟩
          by_cases hdup : isDupAt as t
          · have h1 : addPointList (a :: as) t v = a :: as.set (upperIdx as t - 1) ⟨t, v⟩ := by
              unfold addPointList
              rw [hdupeq, if_pos hdup, upperIdx_cons, if_pos hat, hu1]
              simp [List.set_cons_succ, Nat.add_sub_cancel]
            have h2 : addPointList as t v = as.set (upperIdx as t - 1) ⟨t, v⟩ := by
              unfold addPointList
              rw [if_pos hdup]
            rw [h1]
            have ihs := ih hs'
            rw [h2] at ihs
            simp only [List.map_cons]
            refine List.sorted_cons.mpr ⟨?_, ihs⟩
            intro b hb
            rcases List.mem_map.mp hb with ⟨y, hy, rfl⟩
            rcases List.mem_or_eq_of_mem_set hy with hyl | rfl
            · exact hrel y hyl
            · exact hat1
          · have h1 : addPointList (a :: as) t v = a :: addPointList as t v := by
              unfold addPointList
              rw [hdupeq, if_neg hdup, upperIdx_cons, if_pos hat]
              simp only [List.take_succ_cons, List.drop_succ_cons, List.cons_append]
              rw [if_neg hdup]
            rw [h1]
            simp only [List.map_cons]
            refine List.sorted_cons.mpr ⟨?_, ih hs'⟩
            intro b hb
            rcases List.mem_map.mp hb with ⟨y, hy, rfl⟩
            have hmem : y ∈ as ∨ y = ⟨t, v⟩ := by
              unfold addPointList at hy
              rw [if_neg hdup] at hy
              rcases List.mem_append.mp hy with h | h
              · exact Or.inl (List.take_subset _ _ h)
              · rcases List.mem_cons.mp h with rfl | h
                · exact Or.inr rfl
                · exact Or.inl (List.drop_subset _ _ h)
            rcases hmem with hyl | rfl
            · exact hrel y hyl
            · exact hat1
        · have hu0 : upperIdx as t = 0 := by omega
          have hgt : ∀ y ∈ as, t < y.timestamp := upperIdx_zero as t hs' hu0
          by_cases hdup : a.timestamp = t
          · have h1 : addPointList (a :: as) t v = ⟨t, v⟩ :: as := by
              unfold addPointList isDupAt
              rw [upperIdx_cons, if_pos hat, hu0]
              simp [hdup]
            rw [h1]
            simp only [List.map_cons]
            refine List.sorted_cons.mpr ⟨?_, hs'⟩
            intro b hb
            rcases List.mem_map.mp hb with ⟨y, hy, rfl⟩
            exact hgt y hy
          · have h1 : addPointList (a :: as) t v = a :: ⟨t, v⟩ :: as := by
              unfold addPointList isDupAt
              rw [upperIdx_cons, if_pos hat, hu0]
              simp [hdup]
            rw [h1]
            simp only [List.map_cons]
            refine List.sorted_cons.mpr ⟨?_, List.sorted_cons.mpr ⟨?_, hs'⟩⟩
            · intro b hb
              rcases List.mem_cons.mp hb with rfl | hb
              · exact lt_of_le_of_ne hat hdup
              · rcases List.mem_map.mp hb with ⟨y, hy, rfl⟩
                exact hrel y hy
            · intro b hb
              rcases List.mem_map.mp hb with ⟨y, hy, rfl⟩
              exact hgt y hy
      · push_neg at hat
        have h1 : addPointList (a :: as) t v = ⟨t, v⟩ :: a :: as := by
          unfold addPointList isDupAt
          rw [upperIdx_cons, if_neg (not_le.mpr hat)]
          simp
        rw [h1]
        simp only [List.map_cons]
        refine List.sorted_cons.mpr ⟨?_, by simpa using hs⟩
        intro b hb
        rcases List.mem_cons.mp hb with rfl | hb
        · exact hat
        · rcases List.mem_map.mp hb with ⟨y, hy, rfl⟩
          exact hat.trans (hrel y hy)

/-- Claim C6: starting from a fresh series, after any finite sequence of
AddPoint calls with arbitrary timestamps and values the point list is
strictly increasing by timestamp - for all i less than j the i-th
timestamp is strictly below the j-th - and in particular no two points
share a timestamp; a duplicate-timestamp append overwrites the stored
value in place instead of inserting. -/
theorem claim_C6_strict_order (id : String) (labels : List (String × String))
    (now0 : Int) (ops : List (Int × FVal × Int)) :
    List.Sorted (· < ·) ((runAdds (Series.new id labels now0) ops).points.map
      DataPoint.timestamp)
    ∧ List.Pairwise (· ≠ ·) ((runAdds (Series.new id labels now0) ops).points.map
      DataPoint.timestamp) := by
  have main : ∀ (ops : List (Int × FVal × Int)) (s : Series),
      List.Sorted (· < ·) (s.points.map DataPoint.timestamp) →
      List.Sorted (· < ·) ((runAdds s ops).points.map DataPoint.timestamp) := by
    intro ops
    induction ops with
    | nil => intro s hs; exact hs
    | cons op ops ih =>
        intro s hs
        exact ih (s.addPoint op.1 op.2.1 op.2.2) (addPointList_sorted op.1 op.2.1 s.points hs)
  have hsorted := main ops (Series.new id labels now0) (by simp [Series.new])
  exact ⟨hsorted, hsorted.imp (fun h => ne_of_lt h)⟩

end TSAE
